import Mathlib

/-!
Verification of the semantic-analysis core of an early Solidity compiler
front-end (name/type resolution, C3 linearization, type checking).

The development shallowly embeds the relevant functions of
`src/libsolidity/NameAndTypeResolver.cpp` (which also contains
`TypeChecker.cpp`), `src/libsolidity/AST.cpp` and `src/Types.cpp`:
contracts and structs are identified by natural-number ids, C++ `std::list`
and `std::vector` become `List`, `std::set` membership tests become list
membership, and thrown/collected diagnostics become explicit values.
-/

namespace Solidity

/-- Severity of an emitted diagnostic, following the error taxonomy of the
compiler (`Error::Type` and the exception classes). -/
inductive Severity where
  | ParserError
  | DeclarationError
  | TypeError
  | Warning
  deriving DecidableEq, Repr

/-- A diagnostic: a severity together with its message text. -/
structure Diagnostic where
  severity : Severity
  message : String
  deriving DecidableEq, Repr

/-! ## Integer types (`src/Types.cpp`) -/

/-- Modifier of an integer type, from `IntegerType::Modifier` in
`libsolidity/Types.h`.  Modelled from the spec: the header is not part of the
sources, and the spec describes address as its own sub-lattice and hashes as a
separate family, so the four modifiers are distinct. -/
inductive IntegerModifier where
  | SIGNED
  | UNSIGNED
  | HASH
  | ADDRESS
  deriving DecidableEq, Repr

/-- An integer type: bit count together with a modifier (`IntegerType` in
`src/Types.cpp`).  `bits` is the stored member `m_bits`. -/
structure IntegerType where
  bits : Nat
  modifier : IntegerModifier
  deriving DecidableEq, Repr

/-- Predicate `isAddress` of `IntegerType`.  Modelled from the spec: the
accessor lives in the missing header; the spec treats address as its own
sub-lattice. -/
def IntegerType.isAddress (t : IntegerType) : Bool :=
  t.modifier = IntegerModifier.ADDRESS

/-- Predicate `isHash` of `IntegerType`.  Modelled from the spec (hashes are a
separate equal-width family in the convertibility lattice). -/
def IntegerType.isHash (t : IntegerType) : Bool :=
  t.modifier = IntegerModifier.HASH

/-- Predicate `isSigned` of `IntegerType`.  Modelled from the spec. -/
def IntegerType.isSigned (t : IntegerType) : Bool :=
  t.modifier = IntegerModifier.SIGNED

/-- The assertion checked by the `IntegerType` constructor
(`src/Types.cpp:91`): `BOOST_ASSERT(_bits > 0 && _bits <= 256 && _bits % 8 == 0)`. -/
def integerTypeAssertion (bits : Nat) : Bool :=
  decide (bits > 0) && decide (bits ≤ 256) && decide (bits % 8 = 0)

/-- The `IntegerType` constructor (`src/Types.cpp:88-94`).  The member
initializer list sets `m_bits` to the argument `_bits`; the body then runs the
assertion and, for address types, assigns `160` to the local parameter
`_bits`, which leaves the member `m_bits` unchanged. -/
def IntegerType.construct (bits : Nat) (m : IntegerModifier) : IntegerType :=
  { bits := bits, modifier := m }

/-- The address branch of `Type::fromElementaryTypeName`
(`src/Types.cpp:47-48`): `std::make_shared<IntegerType>(0, IntegerType::Modifier::ADDRESS)`. -/
def fromElementaryTypeNameAddress : IntegerType :=
  IntegerType.construct 0 IntegerModifier.ADDRESS

/-- `IntegerType::isImplicitlyConvertibleTo` (`src/Types.cpp:96-111`),
restricted to integer-category targets (the function returns `false` outright
for every other category). -/
def isImplicitlyConvertibleTo (a convertTo : IntegerType) : Bool :=
  if convertTo.bits < a.bits then false
  else if a.isAddress then convertTo.isAddress
  else if a.isHash then convertTo.isHash
  else if a.isSigned then convertTo.isSigned
  else !convertTo.isSigned || decide (a.bits < convertTo.bits)

/-! ## Index access (`TypeChecker::visit(IndexAccess)`,
`src/libsolidity/NameAndTypeResolver.cpp:1541-1610`, and the identical
`IndexAccess::checkTypeRequirements`, `src/libsolidity/AST.cpp:1083-1135`) -/

/-- Data location of a reference type. -/
inductive DataLocation where
  | Storage
  | Memory
  | CallData
  deriving DecidableEq, Repr

/-- Category of the base expression of an index access, as dispatched by the
`switch` on `baseType->category()`.  Array bases carry their data location. -/
inductive IndexBaseType where
  | arrayBase (loc : DataLocation)
  | mappingBase
  | typeBase
  | otherBase
  deriving DecidableEq, Repr

/-- The `isLValue` annotation computed for an index access: `true` for an
array base unless it lives in calldata (`isLValue = actualType.location() !=
DataLocation::CallData`), `true` for a mapping base, and `false` (the
initial value) for type bases and the fatal-error default branch. -/
def indexAccessIsLValue : IndexBaseType → Bool
  | IndexBaseType.arrayBase loc => decide (loc ≠ DataLocation.CallData)
  | IndexBaseType.mappingBase => true
  | IndexBaseType.typeBase => false
  | IndexBaseType.otherBase => false

/-! ## New expressions (`TypeChecker::endVisit(NewExpression)`,
`src/libsolidity/NameAndTypeResolver.cpp:1447-1474`, and
`NewExpression::checkTypeRequirements`, `src/libsolidity/AST.cpp:1000-1023`) -/

/-- Diagnostics that `endVisit(NewExpression)` can emit after the created
name has been resolved to a contract. -/
inductive NewExpressionDiag where
  | abstractContract
  | circularReference
  deriving DecidableEq, Repr

/-- Message text of a new-expression diagnostic. -/
def NewExpressionDiag.message : NewExpressionDiag → String
  | NewExpressionDiag.abstractContract =>
      "Trying to create an instance of an abstract contract."
  | NewExpressionDiag.circularReference =>
      "Circular reference for contract creation: cannot create instance of derived or same contract."

/-- The checks of `TypeChecker::endVisit(NewExpression)` on `new C` appearing
inside contract `scopeContract`: an error if `C` is not fully implemented,
then an error if `scopeContract` occurs in `C`'s linearized base contracts
(`find(bases.begin(), bases.end(), scopeContract) != bases.end()`).
Contracts are identified by `Nat` ids; `linearizedBases` is the annotation
`contract->annotation().linearizedBaseContracts`. -/
def newExpressionCheck (isFullyImplemented : Bool) (scopeContract : Nat)
    (linearizedBases : List Nat) : List NewExpressionDiag :=
  (if isFullyImplemented then [] else [NewExpressionDiag.abstractContract]) ++
  (if linearizedBases.contains scopeContract then [NewExpressionDiag.circularReference] else [])

/-! ## Return statements (`TypeChecker::endVisit(Return)`,
`src/libsolidity/NameAndTypeResolver.cpp:1144-1168`, and
`Return::checkTypeRequirements`, `src/libsolidity/AST.cpp:742-754`) -/

/-- Diagnostics that the return-statement check can emit. -/
inductive ReturnDiag where
  | returnArgsNotAllowed
  | wrongArgCount
  | notConvertible
  deriving DecidableEq, Repr

/-- Message text of a return-statement diagnostic (all are `TypeError`s). -/
def ReturnDiag.message : ReturnDiag → String
  | ReturnDiag.returnArgsNotAllowed => "Return arguments not allowed."
  | ReturnDiag.wrongArgCount =>
      "Different number of arguments in return statement than in returns declaration."
  | ReturnDiag.notConvertible =>
      "Return argument type is not implicitly convertible to expected type (type of first return variable)."

/-- The return-statement check.  `returnParameters` is the
`functionReturnParameters` annotation (`none` when no parameter list is
attached, e.g. inside a modifier); `exprType` is the type of the returned
expression, `none` for a bare `return;`.  Expression types are restricted to
the integer algebra of `src/Types.cpp`.  Mirrors the source: a bare return
exits immediately without any check. -/
def checkReturn (returnParameters : Option (List IntegerType))
    (exprType : Option IntegerType) : List ReturnDiag :=
  match exprType with
  | none => []
  | some t =>
    match returnParameters with
    | none => [ReturnDiag.returnArgsNotAllowed]
    | some ps =>
      match ps with
      | [p] => if isImplicitlyConvertibleTo t p then [] else [ReturnDiag.notConvertible]
      | _ => [ReturnDiag.wrongArgCount]

/-! ## Declaration registration
(`DeclarationRegistrationHelper::registerDeclaration`,
`src/libsolidity/NameAndTypeResolver.cpp:464-495`) -/

/-- Kind of a declaration, as far as conflict detection cares. -/
inductive DeclKind where
  | functionKind
  | modifierKind
  | otherKind
  deriving DecidableEq, Repr

/-- A source location; the code orders locations by their `start` offset. -/
structure SrcLoc where
  start : Nat
  deriving DecidableEq, Repr

/-- A declaration as needed for registration: a name, a kind and a source
location. -/
structure Decl where
  name : String
  kind : DeclKind
  location : SrcLoc
  deriving DecidableEq, Repr

/-- Conflict test between two declarations.  Modelled from the spec
(`DeclarationContainer` is not among the sources): declarations conflict when
they share a name and they are not both functions nor both modifiers (only
those may overload). -/
def conflictsWith (a b : Decl) : Bool :=
  a.name == b.name &&
  !((a.kind == DeclKind.functionKind && b.kind == DeclKind.functionKind) ||
    (a.kind == DeclKind.modifierKind && b.kind == DeclKind.modifierKind))

/-- The declaration error emitted on a conflict. -/
structure RegistrationError where
  primary : SrcLoc
  message : String
  secondary : SrcLoc
  secondaryMessage : String
  deriving DecidableEq, Repr

/-- Error construction of `registerDeclaration`
(`src/libsolidity/NameAndTypeResolver.cpp:468-489`): the location with the
smaller `start` becomes `firstDeclarationLocation`, the other
`secondDeclarationLocation`, and the error is emitted with the second as the
primary location and the first as the secondary location. -/
def registerDeclarationError (decl conflicting : Decl) : RegistrationError :=
  let locs :=
    if decl.location.start < conflicting.location.start then
      (decl.location, conflicting.location)
    else
      (conflicting.location, decl.location)
  { primary := locs.2
    message := "Identifier already declared."
    secondary := locs.1
    secondaryMessage := "The previous declaration is here:" }

/-- Registration of a declaration into a scope (a list of already-registered
declarations): when some earlier declaration conflicts, the declaration error
is produced from the new declaration and the conflicting one. -/
def registerDeclaration (scope : List Decl) (decl : Decl) : Option RegistrationError :=
  match scope.find? (fun d => conflictsWith decl d) with
  | some conflicting => some (registerDeclarationError decl conflicting)
  | none => none

/-! ## Interface function list (`ContractDefinition::interfaceFunctionList`,
`src/libsolidity/AST.cpp:352-387`) and the selector-collision check
(`TypeChecker::visit(ContractDefinition)`,
`src/libsolidity/NameAndTypeResolver.cpp` TypeChecker part, lines 659-671). -/

/-- Canonical ABI argument types.  Modelled from the spec: the canonical-name
machinery (`FunctionType::externalSignature` and the type's canonical names)
is not among the sources; the spec's signature grammar fixes the canonical
forms, with the width-less `uint`/`int` source forms canonicalized to their
256-bit names. -/
inductive ABIType where
  | uintN (w : Nat)
  | uintDefault
  | intN (w : Nat)
  | intDefault
  | boolT
  | addressT
  | bytesN (n : Nat)
  | bytesDyn
  | stringT
  deriving DecidableEq, Repr

/-- Canonical type name of an ABI argument type. -/
def ABIType.canonical : ABIType → String
  | ABIType.uintN w => "uint" ++ toString w
  | ABIType.uintDefault => "uint256"
  | ABIType.intN w => "int" ++ toString w
  | ABIType.intDefault => "int256"
  | ABIType.boolT => "bool"
  | ABIType.addressT => "address"
  | ABIType.bytesN n => "bytes" ++ toString n
  | ABIType.bytesDyn => "bytes"
  | ABIType.stringT => "string"

/-- The canonical external signature: name, parenthesized comma-separated
canonical argument type names.  Modelled from the spec's signature grammar
(the implementation lives in the missing `Types.cpp` part of the repo). -/
def externalSignature (name : String) (args : List ABIType) : String :=
  name ++ "(" ++ String.intercalate "," (args.map ABIType.canonical) ++ ")"

/-- A defined function as the interface list needs it: name, argument types
and its `isPartOfExternalInterface()` flag. -/
structure FunDef where
  name : String
  args : List ABIType
  ext : Bool
  deriving DecidableEq, Repr

/-- A state variable as the interface list needs it: name, the argument
types of its generated accessor, and its `isPartOfExternalInterface()` flag
(a public state variable). -/
structure VarDef where
  vname : String
  vargs : List ABIType
  vext : Bool
  deriving DecidableEq, Repr

/-- A contract's declarations relevant to the interface list. -/
structure ContractDef where
  funs : List FunDef
  vars : List VarDef
  deriving DecidableEq, Repr

/-- The defined-function loop of `interfaceFunctionList`: skip functions not
part of the external interface; skip signatures already seen; otherwise
record the function's name and signature as seen and append the entry
(4-byte hash of the signature paired with the function, here represented by
its signature).  Returns the appended entries and the updated
`functionsSeen`/`signaturesSeen` sets. -/
def interfaceAddFuns (sel : String → Nat) :
    List FunDef → List String → List String →
      List (Nat × String) × List String × List String
  | [], fSeen, sSeen => ([], fSeen, sSeen)
  | f :: rest, fSeen, sSeen =>
    if f.ext then
      if externalSignature f.name f.args ∈ sSeen then
        interfaceAddFuns sel rest fSeen sSeen
      else
        let r := interfaceAddFuns sel rest (f.name :: fSeen)
          (externalSignature f.name f.args :: sSeen)
        ((sel (externalSignature f.name f.args), externalSignature f.name f.args) :: r.1, r.2)
    else interfaceAddFuns sel rest fSeen sSeen

/-- The state-variable loop of `interfaceFunctionList`: a variable
contributes an accessor entry only when no function or variable of the same
name has been seen; it records its name in `functionsSeen` but — unlike the
function loop — does not record its signature in `signaturesSeen`. -/
def interfaceAddVars (sel : String → Nat) :
    List VarDef → List String → List String →
      List (Nat × String) × List String × List String
  | [], fSeen, sSeen => ([], fSeen, sSeen)
  | v :: rest, fSeen, sSeen =>
    if v.vname ∉ fSeen ∧ v.vext = true then
      let r := interfaceAddVars sel rest (v.vname :: fSeen) sSeen
      ((sel (externalSignature v.vname v.vargs), externalSignature v.vname v.vargs) :: r.1, r.2)
    else interfaceAddVars sel rest fSeen sSeen

/-- The outer loop of `interfaceFunctionList` over the linearized base
contracts: functions first, then state variables, threading the seen
sets. -/
def interfaceContracts (sel : String → Nat) :
    List ContractDef → List String → List String → List (Nat × String)
  | [], _, _ => []
  | c :: rest, fSeen, sSeen =>
    let rf := interfaceAddFuns sel c.funs fSeen sSeen
    let rv := interfaceAddVars sel c.vars rf.2.1 rf.2.2
    rf.1 ++ rv.1 ++ interfaceContracts sel rest rv.2.1 rv.2.2

/-- `ContractDefinition::interfaceFunctionList`: the entry list computed over
the linearized base contracts (derived first), starting from empty seen
sets.  `sel` abstracts the 4-byte SHA-3 selector of a signature string. -/
def interfaceFunctionList (sel : String → Nat) (linearized : List ContractDef) :
    List (Nat × String) :=
  interfaceContracts sel linearized [] []

/-- The selector-collision loop of `TypeChecker::visit(ContractDefinition)`:
walk the interface function list keeping the set of hashes seen; a repeated
hash emits the TypeError "Function signature hash collision for " followed by
the entry's external signature; the hash is inserted regardless. -/
def hashCollisionErrors : List Nat → List (Nat × String) → List Diagnostic
  | _, [] => []
  | hashes, (h, s) :: rest =>
    (if h ∈ hashes
     then [⟨Severity.TypeError, "Function signature hash collision for " ++ s⟩]
     else []) ++
    hashCollisionErrors (h :: hashes) rest

/-- The collision check over a contract's interface function list. -/
def checkHashCollisions (entries : List (Nat × String)) : List Diagnostic :=
  hashCollisionErrors [] entries

/-! ## Struct recursion (`StructDefinition::checkRecursion`,
`src/libsolidity/AST.cpp:486-511`, and the identical DFS in
`TypeChecker::visit(StructDefinition)`, `src/libsolidity/NameAndTypeResolver.cpp`
TypeChecker part, lines 918-945). -/

/-- Category of a struct member's type, as far as the recursion DFS cares:
the DFS recurses only into members whose type category is `Struct` (a struct
held by value); mapping members, array members and value members are not
followed. -/
inductive MemberType where
  | structMember (id : Nat)
  | mappingMember
  | arrayMember
  | valueMember
  deriving DecidableEq, Repr

/-- The table of defined structs: each struct id paired with its member type
list. -/
abbrev StructTable := List (Nat × List MemberType)

/-- Iteration over a struct's member list inside the recursion DFS: recurse
(via `check`) into each struct-category member in order, propagating the
first thrown error (the C++ exception unwinds). -/
def checkRecursionMembers (check : Nat → List Nat → Except Diagnostic Unit) :
    List MemberType → List Nat → Except Diagnostic Unit
  | [], _ => Except.ok ()
  | MemberType.structMember c :: rest, parents =>
    match check c parents with
    | Except.error e => Except.error e
    | Except.ok _ => checkRecursionMembers check rest parents
  | _ :: rest, parents => checkRecursionMembers check rest parents

/-- The recursive lambda `check` of the struct-recursion DFS: if the struct
is an ancestor (`_parents.count(_struct)`) throw the diagnostic, otherwise
insert it into the ancestor set and recurse into every member of struct
category.  `diag` is the diagnostic thrown on detection (the two copies of
the DFS differ only in its severity).  Members are looked up in the table;
the C++ dereferences the member's declaration, which always exists, so an id
missing from the table has no members here.  The fuel bounds the recursion
depth: each level inserts a distinct table id into the ancestor set, so any
fuel above the table size is never exhausted (the lemmas below prove the
bound); exhausted fuel returns success, so an error result always reflects a
genuinely reached ancestor. -/
def checkRecursionCore (diag : Diagnostic) (structs : StructTable) :
    Nat → Nat → List Nat → Except Diagnostic Unit
  | 0, _, _ => Except.ok ()
  | fuel + 1, s, parents =>
    if s ∈ parents then Except.error diag
    else
      match structs.lookup s with
      | none => Except.ok ()
      | some members =>
        checkRecursionMembers (fun c ps => checkRecursionCore diag structs fuel c ps)
          members (s :: parents)

/-- `StructDefinition::checkRecursion` (`src/libsolidity/AST.cpp:486-511`):
the DFS started at the struct with an empty ancestor set, throwing a
`ParserError` "Recursive struct definition." when it reaches an ancestor. -/
def checkRecursion (structs : StructTable) (s : Nat) : Except Diagnostic Unit :=
  checkRecursionCore ⟨Severity.ParserError, "Recursive struct definition."⟩ structs
    (structs.length + 1) s []

/-- The same DFS as run by `TypeChecker::visit(StructDefinition)`, whose
`fatalTypeError` records the same message as a fatal `TypeError`. -/
def typeCheckerStructRecursion (structs : StructTable) (s : Nat) : Except Diagnostic Unit :=
  checkRecursionCore ⟨Severity.TypeError, "Recursive struct definition."⟩ structs
    (structs.length + 1) s []

/-- Edge relation of the value-struct-member graph: struct `a` has a member
of struct category referring to struct `b`. -/
def structEdge (structs : StructTable) (a b : Nat) : Prop :=
  ∃ members, structs.lookup a = some members ∧ MemberType.structMember b ∈ members

/-- Number of table ids not yet in the ancestor set; the depth bound of the
recursion DFS. -/
def remainingStructs (structs : StructTable) (parents : List Nat) : Nat :=
  ((structs.map Prod.fst).filter (fun x => decide (x ∉ parents))).length

/-! ## C3 merge and inheritance linearization
(`NameAndTypeResolver::cThreeMerge`,
`src/libsolidity/NameAndTypeResolver.cpp:245-294`, and
`NameAndTypeResolver::linearizeBaseContracts`, same file, lines 218-243).
Contracts are identified by `Nat` ids. -/

/-- The `appearsOnlyAtHead` helper of `cThreeMerge`: `true` iff the candidate
appears in no list's tail (`find(++bases.begin(), bases.end(), _candidate)`
fails for every list). -/
def appearsOnlyAtHead (toMerge : List (List Nat)) (candidate : Nat) : Bool :=
  toMerge.all (fun bases => !decide (candidate ∈ bases.tail))

/-- Scan of the `nextCandidate` helper: walk the lists in order and return
the first head that appears only at heads.  `toMerge` is the full state
against which `appearsOnlyAtHead` tests (the C++ lambda captures it); the
second argument is the remaining portion being scanned.  The source asserts
that no list is empty; an empty list is skipped here, which is unreachable in
the uses below. -/
def nextCandidateAux (toMerge : List (List Nat)) : List (List Nat) → Option Nat
  | [] => none
  | bases :: rest =>
    match bases with
    | [] => nextCandidateAux toMerge rest
    | h :: _ =>
      if appearsOnlyAtHead toMerge h then some h else nextCandidateAux toMerge rest

/-- The `nextCandidate` helper of `cThreeMerge`: the next element to append
to the linearized list, or `none` on failure. -/
def nextCandidate (toMerge : List (List Nat)) : Option Nat :=
  nextCandidateAux toMerge toMerge

/-- The `removeCandidate` helper of `cThreeMerge`: remove every occurrence of
the candidate from every list (`std::list::remove`) and erase lists that
became empty. -/
def removeCandidate (candidate : Nat) (toMerge : List (List Nat)) : List (List Nat) :=
  (toMerge.map (fun bases => bases.filter (fun x => decide (x ≠ candidate)))).filter
    (fun bases => !bases.isEmpty)

/-- Total number of elements remaining in the merge state; the loop variant
of `cThreeMerge`'s `while` loop. -/
def totalLen (toMerge : List (List Nat)) : Nat :=
  (toMerge.map List.length).sum

/-- The `while (!_toMerge.empty())` loop of `cThreeMerge`, with an explicit
iteration bound: each iteration either fails (`none`, the C++ empty result
vector) or appends the candidate and removes it everywhere.  Exhausted fuel
also yields `none`; `cThreeMerge_terminates` proves that any bound above
`totalLen` never runs out, so the wrapper below computes the loop exactly. -/
def cThreeMergeGo : Nat → List (List Nat) → Option (List Nat)
  | _, [] => some []
  | 0, _ :: _ => none
  | fuel + 1, bases :: rest =>
    match nextCandidate (bases :: rest) with
    | none => none
    | some candidate =>
      (cThreeMergeGo fuel (removeCandidate candidate (bases :: rest))).map
        (fun result => candidate :: result)

/-- `NameAndTypeResolver::cThreeMerge`: drop the empty input lists
(`remove_if`), then run the merge loop; an empty result signals failure (the
C++ code returns an empty vector and discards any partial result). -/
def cThreeMerge (toMerge : List (List Nat)) : List Nat :=
  let start := toMerge.filter (fun bases => !bases.isEmpty)
  (cThreeMergeGo (totalLen start + 1) start).getD []

/-- `NameAndTypeResolver::linearizeBaseContracts` for a contract with id
`contractId`, direct bases `baseIds` (in declaration order) and `lin B` the
already-computed `linearizedBaseContracts` annotation of each base.  The
input to the merge is built by pushing each base's linearization to the
front and each base to the front of the last list, so it is
`[lin Bn, …, lin B1, [C, Bn, …, B1]]`; an empty base linearization aborts
with "Definition of base has to precede definition of derived contract", and
an empty merge result with "Linearization of inheritance graph impossible". -/
def linearizeBaseContracts (contractId : Nat) (baseIds : List Nat)
    (lin : Nat → List Nat) : Except String (List Nat) :=
  if baseIds.all (fun b => !(lin b).isEmpty) then
    let input := (baseIds.reverse.map lin) ++ [contractId :: baseIds.reverse]
    let result := cThreeMerge input
    if result.isEmpty then Except.error "Linearization of inheritance graph impossible"
    else Except.ok result
  else Except.error "Definition of base has to precede definition of derived contract"

end Solidity

namespace Solidity

/-! ## Theorems -/

/-- C3 counterexample: the claim's convertibility lattice fails on the code.
At `int8 → uint16` the claim predicts `true` (a signed type is claimed
implicitly convertible to a strictly wider unsigned type), but
`IntegerType::isImplicitlyConvertibleTo` returns `convertTo.isSigned()` for a
signed source, hence `false`.  At `hash160 → hash256` the claim predicts
`false` (hash conversion claimed to require equal width), but the code only
requires the target to be at least as wide, hence `true`. -/
theorem integer_implicit_conversion_counterexample :
    isImplicitlyConvertibleTo ⟨8, IntegerModifier.SIGNED⟩ ⟨16, IntegerModifier.UNSIGNED⟩ = false ∧
    isImplicitlyConvertibleTo ⟨160, IntegerModifier.HASH⟩ ⟨256, IntegerModifier.HASH⟩ = true := by
  decide

/-- C3 (amended): exact characterization of
`IntegerType::isImplicitlyConvertibleTo` on integer types.  Conversion to a
narrower type is never allowed; an address converts only to an address; a
hash converts only to a hash of at least its width; a signed integer converts
only to a signed integer of at least its width; an unsigned integer converts
to any non-signed integer type of at least its width, and to a signed integer
exactly when the target is strictly wider. -/
theorem isImplicitlyConvertibleTo_spec (a b : IntegerType) :
    isImplicitlyConvertibleTo a b = true ↔
      a.bits ≤ b.bits ∧
      ((a.modifier = IntegerModifier.ADDRESS ∧ b.modifier = IntegerModifier.ADDRESS) ∨
       (a.modifier = IntegerModifier.HASH ∧ b.modifier = IntegerModifier.HASH) ∨
       (a.modifier = IntegerModifier.SIGNED ∧ b.modifier = IntegerModifier.SIGNED) ∨
       (a.modifier = IntegerModifier.UNSIGNED ∧
         (b.modifier ≠ IntegerModifier.SIGNED ∨ a.bits < b.bits))) := by
  rcases a with ⟨ab, am⟩
  rcases b with ⟨bb, bm⟩
  cases am <;> cases bm <;>
    simp [isImplicitlyConvertibleTo, IntegerType.isAddress, IntegerType.isHash,
      IntegerType.isSigned]

/-- C4: constructing the address elementary type violates the `IntegerType`
constructor's own assertion.  `Type::fromElementaryTypeName(Token::ADDRESS)`
invokes `IntegerType(0, Modifier::ADDRESS)`; the assertion `_bits > 0 &&
_bits <= 256 && _bits % 8 == 0` fails at `_bits = 0`, and the subsequent
`_bits = 160` assigns to the already-copied constructor parameter, so the
member `m_bits` stays `0`, not `160`. -/
theorem addressType_constructor_assertion_fails :
    integerTypeAssertion 0 = false ∧
    fromElementaryTypeNameAddress.bits = 0 ∧
    fromElementaryTypeNameAddress.bits ≠ 160 := by
  decide

/-- C8 counterexample: the claim states that an element of a memory-located
array is not an lvalue, but the code sets `isLValue = actualType.location()
!= DataLocation::CallData`, which is `true` for a memory array. -/
theorem indexAccess_memory_lvalue_counterexample :
    indexAccessIsLValue (IndexBaseType.arrayBase DataLocation.Memory) = true := by
  decide

/-- C8 (amended): an index-access expression is annotated as an lvalue if and
only if its base is an array whose data location is not calldata, or a
mapping. -/
theorem indexAccessIsLValue_spec (b : IndexBaseType) :
    indexAccessIsLValue b = true ↔
      (∃ loc, b = IndexBaseType.arrayBase loc ∧ loc ≠ DataLocation.CallData) ∨
      b = IndexBaseType.mappingBase := by
  cases b with
  | arrayBase loc => cases loc <;> simp [indexAccessIsLValue]
  | _ => simp [indexAccessIsLValue]

/-- C9: the circular-creation error is emitted for `new C` inside contract
`S` exactly when `S` occurs in `C`'s linearized base contracts (that is,
when `C` is `S` itself or a contract derived from `S`). -/
theorem newExpression_circular_iff (isFullyImplemented : Bool) (scopeContract : Nat)
    (linearizedBases : List Nat) :
    NewExpressionDiag.circularReference ∈
        newExpressionCheck isFullyImplemented scopeContract linearizedBases ↔
      scopeContract ∈ linearizedBases := by
  by_cases h : scopeContract ∈ linearizedBases <;>
    cases isFullyImplemented <;>
    simp [newExpressionCheck, h]

/-- C6 counterexample: a bare `return;` in a function that declares one
return parameter emits no diagnostic, contrary to the claim: the code returns
immediately when the statement carries no expression. -/
theorem return_without_expression_counterexample :
    checkReturn (some [⟨256, IntegerModifier.UNSIGNED⟩]) none = [] := by
  decide

/-- C6 (amended): a return statement without an expression emits no
diagnostic regardless of the declared return parameters.  With an expression,
"Return arguments not allowed." is emitted when no return parameter list is
attached; "Different number of arguments in return statement than in returns
declaration." when the list does not declare exactly one parameter; otherwise
a diagnostic is emitted exactly when the expression's type is not implicitly
convertible to the declared return type. -/
theorem checkReturn_spec (params : Option (List IntegerType)) (t : IntegerType) :
    (checkReturn params none = []) ∧
    (params = none → checkReturn params (some t) = [ReturnDiag.returnArgsNotAllowed]) ∧
    (∀ ps, params = some ps → ps.length ≠ 1 →
      checkReturn params (some t) = [ReturnDiag.wrongArgCount]) ∧
    (∀ p, params = some [p] →
      checkReturn params (some t) =
        (if isImplicitlyConvertibleTo t p then [] else [ReturnDiag.notConvertible])) := by
  refine ⟨rfl, ?_, ?_, ?_⟩
  · rintro rfl
    rfl
  · rintro ps rfl hlen
    match ps with
    | [] => rfl
    | [p] => exact absurd rfl hlen
    | p :: q :: r => rfl
  · rintro p rfl
    rfl

/-- C6 witness: the amended return-statement characterization evaluated at
concrete inputs. -/
theorem checkReturn_spec_witness :
    checkReturn (some [⟨8, IntegerModifier.UNSIGNED⟩]) none = [] ∧
    checkReturn none (some ⟨8, IntegerModifier.UNSIGNED⟩) = [ReturnDiag.returnArgsNotAllowed] ∧
    checkReturn (some []) (some ⟨8, IntegerModifier.UNSIGNED⟩) = [ReturnDiag.wrongArgCount] ∧
    checkReturn (some [⟨16, IntegerModifier.UNSIGNED⟩]) (some ⟨8, IntegerModifier.UNSIGNED⟩) =
      (if isImplicitlyConvertibleTo ⟨8, IntegerModifier.UNSIGNED⟩ ⟨16, IntegerModifier.UNSIGNED⟩
        then [] else [ReturnDiag.notConvertible]) := by
  refine ⟨(checkReturn_spec (some [⟨8, IntegerModifier.UNSIGNED⟩]) ⟨8, IntegerModifier.UNSIGNED⟩).1,
    (checkReturn_spec none ⟨8, IntegerModifier.UNSIGNED⟩).2.1 rfl,
    (checkReturn_spec (some []) ⟨8, IntegerModifier.UNSIGNED⟩).2.2.1 [] rfl (by decide),
    (checkReturn_spec (some [⟨16, IntegerModifier.UNSIGNED⟩]) ⟨8, IntegerModifier.UNSIGNED⟩).2.2.2
      ⟨16, IntegerModifier.UNSIGNED⟩ rfl⟩

/-- C7 counterexample: registering a declaration at offset 10 that conflicts
with an earlier declaration at offset 5 produces an error whose primary
location is the later declaration (offset 10), not the earlier one as
claimed. -/
theorem registerDeclaration_primary_location_counterexample :
    conflictsWith ⟨"x", DeclKind.otherKind, ⟨10⟩⟩ ⟨"x", DeclKind.otherKind, ⟨5⟩⟩ = true ∧
    (registerDeclaration [⟨"x", DeclKind.otherKind, ⟨5⟩⟩] ⟨"x", DeclKind.otherKind, ⟨10⟩⟩).map
        (fun e => e.primary.start) = some 10 := by
  decide

/-- C7 (amended): for every conflicting pair, `registerDeclaration` emits a
`DeclarationError` "Identifier already declared." whose primary source
location is the later-declared of the two declarations (the larger `start`
offset), and the earlier-declared is reported as the secondary location with
"The previous declaration is here:". -/
theorem registerDeclaration_spec (scope : List Decl) (d c : Decl)
    (h : scope.find? (fun x => conflictsWith d x) = some c) :
    ∃ e, registerDeclaration scope d = some e ∧
      e.primary.start = max d.location.start c.location.start ∧
      e.secondary.start = min d.location.start c.location.start ∧
      e.message = "Identifier already declared." ∧
      e.secondaryMessage = "The previous declaration is here:" := by
  refine ⟨registerDeclarationError d c, ?_, ?_, ?_, rfl, rfl⟩
  · simp [registerDeclaration, h]
  · simp only [registerDeclarationError]
    split <;> simp <;> omega
  · simp only [registerDeclarationError]
    split <;> simp <;> omega

/-- C7 witness: the amended registration characterization at a concrete
scope. -/
theorem registerDeclaration_spec_witness :
    ∃ e, registerDeclaration [⟨"x", DeclKind.otherKind, ⟨5⟩⟩] ⟨"x", DeclKind.otherKind, ⟨10⟩⟩ =
        some e ∧
      e.primary.start = max 10 5 ∧
      e.secondary.start = min 10 5 ∧
      e.message = "Identifier already declared." ∧
      e.secondaryMessage = "The previous declaration is here:" :=
  registerDeclaration_spec [⟨"x", DeclKind.otherKind, ⟨5⟩⟩] ⟨"x", DeclKind.otherKind, ⟨10⟩⟩
    ⟨"x", DeclKind.otherKind, ⟨5⟩⟩ (by decide)

/-! ### Lemmas about the C3 merge -/

theorem merge_head?_some_mem {α : Type} {l : List α} {a : α} (h : l.head? = some a) :
    a ∈ l := by
  cases l with
  | nil => simp at h
  | cons b t =>
    simp only [List.head?_cons, Option.some.injEq] at h
    exact h ▸ List.mem_cons_self b t

theorem merge_head?_eq_cons {α : Type} {l : List α} {a : α} (h : l.head? = some a) :
    ∃ tl, l = a :: tl := by
  cases l with
  | nil => simp at h
  | cons b t =>
    simp only [List.head?_cons, Option.some.injEq] at h
    exact ⟨t, by rw [h]⟩

theorem merge_pair_sublist_mem_tail {x y : Nat} {l : List Nat} (h : [x, y].Sublist l) :
    y ∈ l.tail := by
  cases l with
  | nil => cases h
  | cons a t =>
    cases h with
    | cons _ h' => exact h'.subset (by simp)
    | cons₂ _ h' =>
      simp only [List.tail_cons]
      exact h'.subset (by simp)

theorem merge_appearsOnlyAtHead_iff {ls : List (List Nat)} {c : Nat} :
    appearsOnlyAtHead ls c = true ↔ ∀ l ∈ ls, c ∉ l.tail := by
  simp [appearsOnlyAtHead]

theorem merge_nextCandidateAux_some (t : List (List Nat)) :
    ∀ (ls : List (List Nat)) (c : Nat), nextCandidateAux t ls = some c →
      (∃ l ∈ ls, l.head? = some c) ∧ appearsOnlyAtHead t c = true := by
  intro ls
  induction ls with
  | nil => intro c h; simp [nextCandidateAux] at h
  | cons bases rest ih =>
    intro c h
    cases bases with
    | nil =>
      obtain ⟨⟨l, hl, hh⟩, hflag⟩ := ih c h
      exact ⟨⟨l, List.mem_cons_of_mem _ hl, hh⟩, hflag⟩
    | cons hd tl =>
      simp only [nextCandidateAux] at h
      by_cases hflag : appearsOnlyAtHead t hd = true
      · rw [if_pos hflag] at h
        obtain rfl : hd = c := by simpa using h
        exact ⟨⟨hd :: tl, List.mem_cons_self _ _, rfl⟩, hflag⟩
      · rw [if_neg hflag] at h
        obtain ⟨⟨l, hl, hh⟩, hflag'⟩ := ih c h
        exact ⟨⟨l, List.mem_cons_of_mem _ hl, hh⟩, hflag'⟩

theorem merge_nextCandidate_some {ls : List (List Nat)} {c : Nat}
    (h : nextCandidate ls = some c) :
    (∃ l ∈ ls, l.head? = some c) ∧ appearsOnlyAtHead ls c = true :=
  merge_nextCandidateAux_some ls ls c h

theorem merge_nextCandidate_mem {ls : List (List Nat)} {c : Nat}
    (h : nextCandidate ls = some c) : ∃ l ∈ ls, c ∈ l := by
  obtain ⟨⟨l, hl, hh⟩, _⟩ := merge_nextCandidate_some h
  exact ⟨l, hl, merge_head?_some_mem hh⟩

theorem merge_mem_removeCandidate {c : Nat} {ls : List (List Nat)} {l' : List Nat} :
    l' ∈ removeCandidate c ls ↔
      (∃ l ∈ ls, l.filter (fun x => decide (x ≠ c)) = l') ∧ l' ≠ [] := by
  simp [removeCandidate, List.mem_filter, List.isEmpty_iff]

theorem merge_go_nil (fuel : Nat) : cThreeMergeGo fuel [] = some [] := by
  cases fuel <;> rfl

theorem merge_go_step {n : Nat} {bases : List Nat} {rest : List (List Nat)} {r : List Nat}
    (h : cThreeMergeGo (n + 1) (bases :: rest) = some r) :
    ∃ c r', nextCandidate (bases :: rest) = some c ∧
      cThreeMergeGo n (removeCandidate c (bases :: rest)) = some r' ∧ r = c :: r' := by
  simp only [cThreeMergeGo] at h
  split at h
  · simp at h
  · next c hc =>
    cases hg : cThreeMergeGo n (removeCandidate c (bases :: rest)) with
    | none => rw [hg] at h; simp at h
    | some r' =>
      rw [hg] at h
      simp only [Option.map_some', Option.some.injEq] at h
      exact ⟨c, r', hc, hg, h.symm⟩

theorem merge_go_sound :
    ∀ (fuel : Nat) (ls : List (List Nat)) (r : List Nat),
      cThreeMergeGo fuel ls = some r → ∀ x ∈ r, ∃ l ∈ ls, x ∈ l := by
  intro fuel
  induction fuel with
  | zero =>
    intro ls r h x hx
    cases ls with
    | nil =>
      rw [merge_go_nil] at h
      obtain rfl : ([] : List Nat) = r := by simpa using h
      simp at hx
    | cons bases rest => simp [cThreeMergeGo] at h
  | succ n ih =>
    intro ls r h x hx
    cases ls with
    | nil =>
      rw [merge_go_nil] at h
      obtain rfl : ([] : List Nat) = r := by simpa using h
      simp at hx
    | cons bases rest =>
      obtain ⟨c, r', hc, hg, rfl⟩ := merge_go_step h
      rcases List.mem_cons.mp hx with rfl | hx'
      · exact merge_nextCandidate_mem hc
      · obtain ⟨l', hl', hx''⟩ := ih _ _ hg x hx'
        obtain ⟨⟨l, hl, hfil⟩, _⟩ := merge_mem_removeCandidate.mp hl'
        exact ⟨l, hl, List.mem_of_mem_filter (hfil ▸ hx'')⟩

theorem merge_go_complete :
    ∀ (fuel : Nat) (ls : List (List Nat)) (r : List Nat),
      cThreeMergeGo fuel ls = some r → ∀ l ∈ ls, ∀ x ∈ l, x ∈ r := by
  intro fuel
  induction fuel with
  | zero =>
    intro ls r h l hl x hx
    cases ls with
    | nil => simp at hl
    | cons bases rest => simp [cThreeMergeGo] at h
  | succ n ih =>
    intro ls r h l hl x hx
    cases ls with
    | nil => simp at hl
    | cons bases rest =>
      obtain ⟨c, r', hc, hg, rfl⟩ := merge_go_step h
      by_cases hxc : x = c
      · exact hxc ▸ List.mem_cons_self _ _
      · have hxf : x ∈ l.filter (fun z => decide (z ≠ c)) :=
          List.mem_filter.mpr ⟨hx, by simpa using hxc⟩
        have hmem : l.filter (fun z => decide (z ≠ c)) ∈ removeCandidate c (bases :: rest) :=
          merge_mem_removeCandidate.mpr ⟨⟨l, hl, rfl⟩, List.ne_nil_of_mem hxf⟩
        exact List.mem_cons_of_mem _ (ih _ _ hg _ hmem x hxf)

theorem merge_go_nodup :
    ∀ (fuel : Nat) (ls : List (List Nat)) (r : List Nat),
      cThreeMergeGo fuel ls = some r → r.Nodup := by
  intro fuel
  induction fuel with
  | zero =>
    intro ls r h
    cases ls with
    | nil =>
      rw [merge_go_nil] at h
      obtain rfl : ([] : List Nat) = r := by simpa using h
      exact List.nodup_nil
    | cons bases rest => simp [cThreeMergeGo] at h
  | succ n ih =>
    intro ls r h
    cases ls with
    | nil =>
      rw [merge_go_nil] at h
      obtain rfl : ([] : List Nat) = r := by simpa using h
      exact List.nodup_nil
    | cons bases rest =>
      obtain ⟨c, r', hc, hg, rfl⟩ := merge_go_step h
      refine List.nodup_cons.mpr ⟨?_, ih _ _ hg⟩
      intro hcr
      obtain ⟨l', hl', hcl'⟩ := merge_go_sound _ _ _ hg c hcr
      obtain ⟨⟨l, _, hfil⟩, _⟩ := merge_mem_removeCandidate.mp hl'
      have := List.of_mem_filter (p := fun z => decide (z ≠ c)) (hfil ▸ hcl')
      simp at this

theorem merge_go_pair :
    ∀ (fuel : Nat) (ls : List (List Nat)) (r : List Nat),
      cThreeMergeGo fuel ls = some r →
      ∀ l ∈ ls, ∀ x y : Nat, x ≠ y → [x, y].Sublist l → [x, y].Sublist r := by
  intro fuel
  induction fuel with
  | zero =>
    intro ls r h l hl x y hxy hsub
    cases ls with
    | nil => simp at hl
    | cons bases rest => simp [cThreeMergeGo] at h
  | succ n ih =>
    intro ls r h l hl x y hxy hsub
    cases ls with
    | nil => simp at hl
    | cons bases rest =>
      obtain ⟨c, r', hc, hg, rfl⟩ := merge_go_step h
      have hytail : y ∈ l.tail := merge_pair_sublist_mem_tail hsub
      have hyc : y ≠ c := by
        rintro rfl
        exact (merge_appearsOnlyAtHead_iff.mp (merge_nextCandidate_some hc).2 l hl) hytail
      have hyl : y ∈ l := hsub.subset (by simp)
      by_cases hxc : x = c
      · subst hxc
        have hyf : y ∈ l.filter (fun z => decide (z ≠ x)) :=
          List.mem_filter.mpr ⟨hyl, by simpa using fun h => hxy h.symm⟩
        have hmem : l.filter (fun z => decide (z ≠ x)) ∈ removeCandidate x (bases :: rest) :=
          merge_mem_removeCandidate.mpr ⟨⟨l, hl, rfl⟩, List.ne_nil_of_mem hyf⟩
        have hyr : y ∈ r' := merge_go_complete _ _ _ hg _ hmem y hyf
        exact List.Sublist.cons₂ x (List.singleton_sublist.mpr hyr)
      · have hsubf : [x, y].Sublist (l.filter (fun z => decide (z ≠ c))) := by
          have := hsub.filter (fun z => decide (z ≠ c))
          rwa [show [x, y].filter (fun z => decide (z ≠ c)) = [x, y] by
            simp [List.filter, hxc, hyc]] at this
        have hyf : y ∈ l.filter (fun z => decide (z ≠ c)) := hsubf.subset (by simp)
        have hmem : l.filter (fun z => decide (z ≠ c)) ∈ removeCandidate c (bases :: rest) :=
          merge_mem_removeCandidate.mpr ⟨⟨l, hl, rfl⟩, List.ne_nil_of_mem hyf⟩
        exact List.Sublist.cons c (ih _ _ hg _ hmem x y hxy hsubf)

theorem merge_totalLen_cons (l : List Nat) (ls : List (List Nat)) :
    totalLen (l :: ls) = l.length + totalLen ls := by
  simp [totalLen]

theorem merge_removeCandidate_cons (c : Nat) (l : List Nat) (rest : List (List Nat)) :
    removeCandidate c (l :: rest) =
      if (l.filter (fun x => decide (x ≠ c))).isEmpty then removeCandidate c rest
      else l.filter (fun x => decide (x ≠ c)) :: removeCandidate c rest := by
  simp only [removeCandidate, List.map_cons, List.filter_cons]
  cases h : (l.filter (fun x => decide (x ≠ c))).isEmpty <;> simp [h]

theorem merge_length_filter_lt {l : List Nat} {c : Nat} (hc : c ∈ l) :
    (l.filter (fun x => decide (x ≠ c))).length < l.length := by
  induction l with
  | nil => simp at hc
  | cons a t ih =>
    rw [List.filter_cons]
    by_cases hac : a = c
    · subst hac
      rw [if_neg (by simp)]
      have := List.length_filter_le (fun x => decide (x ≠ a)) t
      simp only [List.length_cons]
      omega
    · rw [if_pos (by simp [hac])]
      have hct : c ∈ t := by
        rcases List.mem_cons.mp hc with rfl | h
        · exact absurd rfl hac
        · exact h
      have := ih hct
      simp only [List.length_cons]
      omega

theorem merge_totalLen_removeCandidate_le (c : Nat) :
    ∀ ls : List (List Nat), totalLen (removeCandidate c ls) ≤ totalLen ls := by
  intro ls
  induction ls with
  | nil => simp [removeCandidate, totalLen]
  | cons l rest ih =>
    rw [merge_removeCandidate_cons, merge_totalLen_cons]
    have hle := List.length_filter_le (fun x => decide (x ≠ c)) l
    split
    · omega
    · rw [merge_totalLen_cons]
      omega

theorem merge_totalLen_removeCandidate_lt {c : Nat} :
    ∀ ls : List (List Nat), (∃ l ∈ ls, c ∈ l) →
      totalLen (removeCandidate c ls) < totalLen ls := by
  intro ls
  induction ls with
  | nil => rintro ⟨l, hl, _⟩; simp at hl
  | cons l rest ih =>
    rintro ⟨l₀, hl₀, hc⟩
    rw [merge_removeCandidate_cons, merge_totalLen_cons]
    rcases List.mem_cons.mp hl₀ with rfl | hmem
    · have hlt := merge_length_filter_lt hc
      have hle := merge_totalLen_removeCandidate_le c rest
      have hpos : 0 < l₀.length := List.length_pos.mpr (List.ne_nil_of_mem hc)
      split
      · omega
      · rw [merge_totalLen_cons]; omega
    · have hlt := ih ⟨l₀, hmem, hc⟩
      have hle := List.length_filter_le (fun x => decide (x ≠ c)) l
      split
      · omega
      · rw [merge_totalLen_cons]; omega

theorem merge_go_fuel_eq :
    ∀ (n m : Nat) (ls : List (List Nat)), totalLen ls < n → totalLen ls < m →
      cThreeMergeGo n ls = cThreeMergeGo m ls := by
  intro n
  induction n with
  | zero => intro m ls h _; exact absurd h (Nat.not_lt_zero _)
  | succ n ih =>
    intro m ls hn hm
    cases ls with
    | nil => rw [merge_go_nil, merge_go_nil]
    | cons bases rest =>
      obtain ⟨m', rfl⟩ : ∃ m', m = m' + 1 := ⟨m - 1, by omega⟩
      simp only [cThreeMergeGo]
      cases hc : nextCandidate (bases :: rest) with
      | none => rfl
      | some c =>
        have hlt := merge_totalLen_removeCandidate_lt _ (merge_nextCandidate_mem hc)
        have heq := ih m' (removeCandidate c (bases :: rest)) (by omega) (by omega)
        show Option.map (fun result => c :: result)
            (cThreeMergeGo n (removeCandidate c (bases :: rest))) =
          Option.map (fun result => c :: result)
            (cThreeMergeGo m' (removeCandidate c (bases :: rest)))
        rw [heq]

/-- C10: the merge loop of `cThreeMerge` terminates on every input.
Whenever the loop finds a candidate, removing it strictly decreases the total
number of remaining elements, so the loop returns within `totalLen` + 1
iterations: any iteration bound above `totalLen` computes the same (total)
function. -/
theorem cThreeMerge_terminates (ls : List (List Nat)) :
    (∀ c, nextCandidate ls = some c →
      totalLen (removeCandidate c ls) < totalLen ls) ∧
    (∀ fuel, totalLen ls < fuel →
      cThreeMergeGo fuel ls = cThreeMergeGo (totalLen ls + 1) ls) := by
  constructor
  · intro c hc
    exact merge_totalLen_removeCandidate_lt _ (merge_nextCandidate_mem hc)
  · intro fuel hfuel
    exact merge_go_fuel_eq fuel (totalLen ls + 1) ls hfuel (Nat.lt_succ_self _)

/-- C10 witness: the termination theorem evaluated on a concrete merge
state. -/
theorem cThreeMerge_terminates_witness :
    totalLen (removeCandidate 1 [[1, 2], [1]]) < totalLen [[1, 2], [1]] ∧
    cThreeMergeGo 7 [[1, 2], [1]] = cThreeMergeGo (totalLen [[1, 2], [1]] + 1) [[1, 2], [1]] :=
  ⟨(cThreeMerge_terminates [[1, 2], [1]]).1 1 (by decide),
   (cThreeMerge_terminates [[1, 2], [1]]).2 7 (by decide)⟩

theorem merge_nextCandidateAux_append (t : List (List Nat)) :
    ∀ pre rest : List (List Nat),
      (∀ l ∈ pre, ∃ hd tl, l = hd :: tl ∧ appearsOnlyAtHead t hd = false) →
      nextCandidateAux t (pre ++ rest) = nextCandidateAux t rest := by
  intro pre
  induction pre with
  | nil => intro rest _; rfl
  | cons l pre' ih =>
    intro rest hpre
    obtain ⟨hd, tl, rfl, hflag⟩ := hpre _ (List.mem_cons_self _ _)
    simp only [List.cons_append, nextCandidateAux, hflag]
    rw [if_neg (by simp)]
    exact ih rest (fun l hl => hpre l (List.mem_cons_of_mem _ hl))

theorem linearize_first_candidate (contractId : Nat) (baseIds : List Nat) (lin : Nat → List Nat)
    (hself : ∀ B ∈ baseIds, (lin B).head? = some B)
    (hnoC : ∀ B ∈ baseIds, contractId ∉ lin B)
    (hCnb : contractId ∉ baseIds) :
    nextCandidate ((baseIds.reverse.map lin) ++ [contractId :: baseIds.reverse]) =
      some contractId := by
  have hflagC : appearsOnlyAtHead
      ((baseIds.reverse.map lin) ++ [contractId :: baseIds.reverse]) contractId = true := by
    rw [merge_appearsOnlyAtHead_iff]
    intro l hl
    rcases List.mem_append.mp hl with hmap | hlast
    · obtain ⟨B, hB, rfl⟩ := List.mem_map.mp hmap
      intro htail
      exact hnoC B (List.mem_reverse.mp hB) (List.mem_of_mem_tail htail)
    · obtain rfl : l = contractId :: baseIds.reverse := by simpa using hlast
      simp only [List.tail_cons]
      intro htail
      exact hCnb (List.mem_reverse.mp htail)
  unfold nextCandidate
  rw [merge_nextCandidateAux_append _ _ _ ?_]
  · simp only [nextCandidateAux]
    rw [if_pos hflagC]
  · intro l hl
    obtain ⟨B, hB, rfl⟩ := List.mem_map.mp hl
    have hBb : B ∈ baseIds := List.mem_reverse.mp hB
    obtain ⟨tl, htl⟩ := merge_head?_eq_cons (hself B hBb)
    refine ⟨B, tl, htl, ?_⟩
    cases hb : appearsOnlyAtHead ((baseIds.reverse.map lin) ++ [contractId :: baseIds.reverse]) B
    · rfl
    · exfalso
      have hlast := merge_appearsOnlyAtHead_iff.mp hb (contractId :: baseIds.reverse)
        (List.mem_append_right _ (by simp))
      simp only [List.tail_cons] at hlast
      exact hlast (List.mem_reverse.mpr hBb)

/-- C1: for every contract, `linearizeBaseContracts` either reports the fatal
error "Linearization of inheritance graph impossible" (the C3 merge found no
usable head while lists remained), or produces a duplicate-free list whose
first element is the contract itself and in which, for every inheritance
edge (D derives from E) among the listed contracts, D precedes E.  The
hypotheses are the invariants established for the already-processed bases:
each base's linearization starts with the base itself, none contains the
contract being linearized (bases precede the derived contract), each is
closed under inheritance edges and already orders them derived-before-base,
and no contract derives from itself. -/
theorem linearizeBaseContracts_spec
    (contractId : Nat) (baseIds : List Nat) (lin derives : Nat → List Nat)
    (hder : derives contractId = baseIds)
    (hself : ∀ B ∈ baseIds, (lin B).head? = some B)
    (hnoC : ∀ B ∈ baseIds, contractId ∉ lin B)
    (hord : ∀ B ∈ baseIds, ∀ D ∈ lin B, ∀ E ∈ derives D, D ≠ E → [D, E].Sublist (lin B))
    (hirr : ∀ D, D ∉ derives D) :
    linearizeBaseContracts contractId baseIds lin =
        Except.error "Linearization of inheritance graph impossible" ∨
      ∃ res, linearizeBaseContracts contractId baseIds lin = Except.ok res ∧
        res.head? = some contractId ∧ res.Nodup ∧
        ∀ D ∈ res, ∀ E ∈ derives D, E ∈ res → [D, E].Sublist res := by
  have hCnb : contractId ∉ baseIds := by
    intro hc
    exact hnoC _ hc (merge_head?_some_mem (hself _ hc))
  have hallb : (baseIds.all fun b => !(lin b).isEmpty) = true := by
    rw [List.all_eq_true]
    intro b hb
    obtain ⟨tl, htl⟩ := merge_head?_eq_cons (hself b hb)
    simp [htl]
  have hinput_ne : ∀ l ∈ (baseIds.reverse.map lin) ++ [contractId :: baseIds.reverse],
      (!l.isEmpty) = true := by
    intro l hl
    rcases List.mem_append.mp hl with hmap | hlast
    · obtain ⟨B, hB, rfl⟩ := List.mem_map.mp hmap
      obtain ⟨tl, htl⟩ := merge_head?_eq_cons (hself B (List.mem_reverse.mp hB))
      simp [htl]
    · obtain rfl : l = contractId :: baseIds.reverse := by simpa using hlast
      simp
  have hfilter : ((baseIds.reverse.map lin) ++ [contractId :: baseIds.reverse]).filter
        (fun bases => !bases.isEmpty) =
      (baseIds.reverse.map lin) ++ [contractId :: baseIds.reverse] :=
    List.filter_eq_self.mpr hinput_ne
  have hmerge : cThreeMerge ((baseIds.reverse.map lin) ++ [contractId :: baseIds.reverse]) =
      (cThreeMergeGo
        (totalLen ((baseIds.reverse.map lin) ++ [contractId :: baseIds.reverse]) + 1)
        ((baseIds.reverse.map lin) ++ [contractId :: baseIds.reverse])).getD [] := by
    simp only [cThreeMerge, hfilter]
  have hlin : linearizeBaseContracts contractId baseIds lin =
      (if (cThreeMerge ((baseIds.reverse.map lin) ++ [contractId :: baseIds.reverse])).isEmpty
       then Except.error "Linearization of inheritance graph impossible"
       else Except.ok
         (cThreeMerge ((baseIds.reverse.map lin) ++ [contractId :: baseIds.reverse]))) := by
    simp only [linearizeBaseContracts]
    rw [if_pos hallb]
  cases hgo : cThreeMergeGo
      (totalLen ((baseIds.reverse.map lin) ++ [contractId :: baseIds.reverse]) + 1)
      ((baseIds.reverse.map lin) ++ [contractId :: baseIds.reverse]) with
  | none =>
    left
    rw [hlin, hmerge, hgo]
    rfl
  | some r =>
    by_cases hr : r = []
    · left
      rw [hlin, hmerge, hgo, hr]
      rfl
    · right
      refine ⟨r, ?_, ?_, merge_go_nodup _ _ _ hgo, ?_⟩
      · rw [hlin, hmerge, hgo]
        simp only [Option.getD_some]
        rw [if_neg (by simpa [List.isEmpty_iff] using hr)]
      · have hnc := linearize_first_candidate contractId baseIds lin hself hnoC hCnb
        obtain ⟨l₀, rest₀, hin⟩ : ∃ l₀ rest₀,
            (baseIds.reverse.map lin) ++ [contractId :: baseIds.reverse] = l₀ :: rest₀ := by
          cases hmap : baseIds.reverse.map lin with
          | nil => exact ⟨contractId :: baseIds.reverse, [], by simp⟩
          | cons a l => exact ⟨a, l ++ [contractId :: baseIds.reverse], by simp⟩
        rw [hin] at hgo hnc
        obtain ⟨c, r', hc, _, rfl⟩ := merge_go_step hgo
        rw [hnc] at hc
        obtain rfl : contractId = c := by simpa using hc
        rfl
      · intro D hD E hE _
        obtain ⟨l, hl, hDl⟩ := merge_go_sound _ _ _ hgo D hD
        rcases List.mem_append.mp hl with hmapm | hlast
        · obtain ⟨B, hB, rfl⟩ := List.mem_map.mp hmapm
          have hBb := List.mem_reverse.mp hB
          have hDE : D ≠ E := fun h => hirr E (h ▸ hE)
          exact merge_go_pair _ _ _ hgo _ hl D E hDE (hord B hBb D hDl E hE hDE)
        · obtain rfl : l = contractId :: baseIds.reverse := by simpa using hlast
          rcases List.mem_cons.mp hDl with rfl | hDrev
          · have hEb : E ∈ baseIds := hder ▸ hE
            have hDE : D ≠ E := fun h => hCnb (by rw [h]; exact hEb)
            have hsub : [D, E].Sublist (D :: baseIds.reverse) :=
              List.Sublist.cons₂ _ (List.singleton_sublist.mpr (List.mem_reverse.mpr hEb))
            exact merge_go_pair _ _ _ hgo _ hl D E hDE hsub
          · have hDb : D ∈ baseIds := List.mem_reverse.mp hDrev
            have hDlin : D ∈ lin D := merge_head?_some_mem (hself D hDb)
            have hDE : D ≠ E := fun h => hirr E (h ▸ hE)
            have hlinmem : lin D ∈ (baseIds.reverse.map lin) ++ [contractId :: baseIds.reverse] :=
              List.mem_append_left _ (List.mem_map.mpr ⟨D, List.mem_reverse.mpr hDb, rfl⟩)
            exact merge_go_pair _ _ _ hgo _ hlinmem D E hDE
              (hord D hDb D hDlin E hE hDE)

/-- C1 witness: the linearization theorem applied to a concrete hierarchy
(contract 3 derives from 1 and 2, contract 2 derives from 1), discharging
every hypothesis. -/
theorem linearizeBaseContracts_spec_witness :
    linearizeBaseContracts 3 [1, 2]
        (fun n => if n = 1 then [1] else if n = 2 then [2, 1] else []) =
        Except.error "Linearization of inheritance graph impossible" ∨
      ∃ res, linearizeBaseContracts 3 [1, 2]
            (fun n => if n = 1 then [1] else if n = 2 then [2, 1] else []) =
          Except.ok res ∧
        res.head? = some 3 ∧ res.Nodup ∧
        ∀ D ∈ res, ∀ E ∈ (fun n => if n = 3 then [1, 2] else if n = 2 then [1] else []) D,
          E ∈ res → [D, E].Sublist res :=
  linearizeBaseContracts_spec 3 [1, 2]
    (fun n => if n = 1 then [1] else if n = 2 then [2, 1] else [])
    (fun n => if n = 3 then [1, 2] else if n = 2 then [1] else [])
    rfl (by decide) (by decide) (by decide)
    (by
      intro D
      by_cases h3 : D = 3
      · subst h3; decide
      · by_cases h2 : D = 2
        · subst h2; decide
        · simp [h3, h2])

/-! ### Lemmas about the struct-recursion DFS -/

theorem struct_members_ok {check : Nat → List Nat → Except Diagnostic Unit}
    {parents : List Nat} :
    ∀ {ms : List MemberType}, checkRecursionMembers check ms parents = Except.ok () →
      ∀ c, MemberType.structMember c ∈ ms → check c parents = Except.ok () := by
  intro ms
  induction ms with
  | nil => intro _ c hc; simp at hc
  | cons m rest ih =>
    intro h c hc
    cases m with
    | structMember d =>
      simp only [checkRecursionMembers] at h
      split at h
      · exact absurd h (by simp)
      · next u heq =>
        rcases List.mem_cons.mp hc with heq2 | hrest
        · cases u
          injection heq2 with hcc
          exact hcc ▸ heq
        · exact ih h c hrest
    | mappingMember =>
      simp only [checkRecursionMembers] at h
      rcases List.mem_cons.mp hc with heq2 | hrest
      · cases heq2
      · exact ih h c hrest
    | arrayMember =>
      simp only [checkRecursionMembers] at h
      rcases List.mem_cons.mp hc with heq2 | hrest
      · cases heq2
      · exact ih h c hrest
    | valueMember =>
      simp only [checkRecursionMembers] at h
      rcases List.mem_cons.mp hc with heq2 | hrest
      · cases heq2
      · exact ih h c hrest

theorem struct_members_error {check : Nat → List Nat → Except Diagnostic Unit}
    {parents : List Nat} {d : Diagnostic} :
    ∀ {ms : List MemberType}, checkRecursionMembers check ms parents = Except.error d →
      ∃ c, MemberType.structMember c ∈ ms ∧ check c parents = Except.error d := by
  intro ms
  induction ms with
  | nil => intro h; simp [checkRecursionMembers] at h
  | cons m rest ih =>
    intro h
    cases m with
    | structMember c =>
      simp only [checkRecursionMembers] at h
      split at h
      · next e heq =>
        obtain rfl : e = d := by simpa using h
        exact ⟨c, List.mem_cons_self _ _, heq⟩
      · obtain ⟨c', hc', hch⟩ := ih h
        exact ⟨c', List.mem_cons_of_mem _ hc', hch⟩
    | mappingMember =>
      simp only [checkRecursionMembers] at h
      obtain ⟨c', hc', hch⟩ := ih h
      exact ⟨c', List.mem_cons_of_mem _ hc', hch⟩
    | arrayMember =>
      simp only [checkRecursionMembers] at h
      obtain ⟨c', hc', hch⟩ := ih h
      exact ⟨c', List.mem_cons_of_mem _ hc', hch⟩
    | valueMember =>
      simp only [checkRecursionMembers] at h
      obtain ⟨c', hc', hch⟩ := ih h
      exact ⟨c', List.mem_cons_of_mem _ hc', hch⟩

theorem struct_core_error (diag : Diagnostic) (structs : StructTable) :
    ∀ (fuel s : Nat) (parents : List Nat) (d : Diagnostic),
      checkRecursionCore diag structs fuel s parents = Except.error d → d = diag := by
  intro fuel
  induction fuel with
  | zero => intro s parents d h; simp [checkRecursionCore] at h
  | succ fuel ih =>
    intro s parents d h
    simp only [checkRecursionCore] at h
    by_cases hs : s ∈ parents
    · rw [if_pos hs] at h
      have : diag = d := by simpa using h
      exact this.symm
    · rw [if_neg hs] at h
      split at h
      · exact absurd h (by simp)
      · obtain ⟨c, _, hc⟩ := struct_members_error h
        exact ih c (s :: parents) d hc

theorem struct_lookup_mem_keys {structs : StructTable} {s : Nat} {ms : List MemberType}
    (h : structs.lookup s = some ms) : s ∈ structs.map Prod.fst := by
  induction structs with
  | nil => simp [List.lookup] at h
  | cons p rest ih =>
    rcases p with ⟨k, v⟩
    simp only [List.lookup] at h
    cases hbk : (s == k) with
    | true =>
      have : s = k := by simpa using hbk
      simp [this]
    | false =>
      rw [hbk] at h
      exact List.mem_cons_of_mem _ (ih h)

theorem struct_filter_le (s : Nat) (parents : List Nat) :
    ∀ ids : List Nat,
      (ids.filter (fun x => decide (x ∉ s :: parents))).length ≤
        (ids.filter (fun x => decide (x ∉ parents))).length := by
  intro ids
  induction ids with
  | nil => simp
  | cons a t ih =>
    rw [List.filter_cons, List.filter_cons]
    by_cases h1 : a ∈ s :: parents
    · rw [if_neg (by simp [h1])]
      by_cases h2 : a ∈ parents
      · rw [if_neg (by simp [h2])]
        exact ih
      · rw [if_pos (by simp [h2])]
        simp only [List.length_cons]
        omega
    · have h2 : a ∉ parents := fun hm => h1 (List.mem_cons_of_mem _ hm)
      rw [if_pos (by simp [h1]), if_pos (by simp [h2])]
      simp only [List.length_cons]
      omega

theorem struct_filter_lt (s : Nat) (parents : List Nat) :
    ∀ ids : List Nat, s ∈ ids → s ∉ parents →
      (ids.filter (fun x => decide (x ∉ s :: parents))).length <
        (ids.filter (fun x => decide (x ∉ parents))).length := by
  intro ids
  induction ids with
  | nil => intro h; simp at h
  | cons a t ih =>
    intro hmem hs
    rw [List.filter_cons, List.filter_cons]
    by_cases has : a = s
    · subst has
      rw [if_neg (by simp), if_pos (by simp [hs])]
      have := struct_filter_le a parents t
      simp only [List.length_cons]
      omega
    · have hts : s ∈ t := by
        rcases List.mem_cons.mp hmem with h | h
        · exact absurd h.symm has
        · exact h
      have hlt := ih hts hs
      by_cases h1 : a ∈ s :: parents
      · have h2 : a ∈ parents := by
          rcases List.mem_cons.mp h1 with h | h
          · exact absurd h has
          · exact h
        rw [if_neg (by simp [h1]), if_neg (by simp [h2])]
        exact hlt
      · have h2 : a ∉ parents := fun hm => h1 (List.mem_cons_of_mem _ hm)
        rw [if_pos (by simp [h1]), if_pos (by simp [h2])]
        simp only [List.length_cons]
        omega

theorem struct_remaining_lt {structs : StructTable} {s : Nat} {parents : List Nat}
    (hid : s ∈ structs.map Prod.fst) (hs : s ∉ parents) :
    remainingStructs structs (s :: parents) < remainingStructs structs parents :=
  struct_filter_lt s parents (structs.map Prod.fst) hid hs

theorem struct_remaining_nil_le (structs : StructTable) :
    remainingStructs structs [] ≤ structs.length := by
  unfold remainingStructs
  calc ((structs.map Prod.fst).filter (fun x => decide (x ∉ ([] : List Nat)))).length
      ≤ (structs.map Prod.fst).length := List.length_filter_le _ _
    _ = structs.length := List.length_map _ _

theorem struct_core_ok_walks (diag : Diagnostic) (structs : StructTable) :
    ∀ (w : List Nat) (fuel s : Nat) (parents : List Nat),
      remainingStructs structs parents < fuel →
      checkRecursionCore diag structs fuel s parents = Except.ok () →
      w.Chain' (structEdge structs) → w.head? = some s →
      (∀ v ∈ w, v ∉ parents) ∧ w.Nodup := by
  intro w
  induction w with
  | nil => intro fuel s parents _ _ _ hh; simp at hh
  | cons a w' ih =>
    intro fuel s parents hfuel hok hchain hh
    obtain rfl : a = s := by simpa using hh
    obtain ⟨fuel', rfl⟩ : ∃ f, fuel = f + 1 := ⟨fuel - 1, by omega⟩
    simp only [checkRecursionCore] at hok
    by_cases hs : a ∈ parents
    · rw [if_pos hs] at hok
      exact absurd hok (by simp)
    · rw [if_neg hs] at hok
      split at hok
      · next hlknone =>
        cases w' with
        | nil =>
          refine ⟨?_, List.nodup_cons.mpr ⟨by simp, List.nodup_nil⟩⟩
          intro v hv
          obtain rfl : v = a := by simpa using hv
          exact hs
        | cons c w'' =>
          obtain ⟨ms, hlk, _⟩ := (List.chain'_cons.mp hchain).1
          rw [hlknone] at hlk
          cases hlk
      · next ms hlksome =>
        cases w' with
        | nil =>
          refine ⟨?_, List.nodup_cons.mpr ⟨by simp, List.nodup_nil⟩⟩
          intro v hv
          obtain rfl : v = a := by simpa using hv
          exact hs
        | cons c w'' =>
          obtain ⟨ms', hlk, hmem⟩ := (List.chain'_cons.mp hchain).1
          have hchain' := (List.chain'_cons.mp hchain).2
          rw [hlksome] at hlk
          obtain rfl : ms = ms' := by simpa using hlk
          have hchild : checkRecursionCore diag structs fuel' c (a :: parents) = Except.ok () :=
            struct_members_ok hok c hmem
          have hfuel' : remainingStructs structs (a :: parents) < fuel' := by
            have h1 := struct_remaining_lt (struct_lookup_mem_keys hlksome) hs
            omega
          obtain ⟨hpar, hnodup⟩ := ih fuel' c (a :: parents) hfuel' hchild hchain' rfl
          constructor
          · intro v hv
            rcases List.mem_cons.mp hv with rfl | hv'
            · exact hs
            · exact fun hp => hpar v hv' (List.mem_cons_of_mem _ hp)
          · refine List.nodup_cons.mpr ⟨?_, hnodup⟩
            intro hsw
            exact hpar a hsw (List.mem_cons_self _ _)

theorem struct_core_cycle (diag : Diagnostic) (structs : StructTable) (S : Nat)
    (hcycle : ∃ w : List Nat,
      w.Chain' (structEdge structs) ∧ w.head? = some S ∧ ¬ w.Nodup) :
    checkRecursionCore diag structs (structs.length + 1) S [] = Except.error diag := by
  obtain ⟨w, hchain, hhead, hnodup⟩ := hcycle
  cases hres : checkRecursionCore diag structs (structs.length + 1) S [] with
  | ok u =>
    exfalso
    cases u
    have hfuel : remainingStructs structs [] < structs.length + 1 :=
      Nat.lt_succ_of_le (struct_remaining_nil_le structs)
    exact hnodup (struct_core_ok_walks diag structs w _ S [] hfuel hres hchain hhead).2
  | error d =>
    rw [struct_core_error diag structs _ S [] d hres]

/-! ### Lemmas about the interface function list -/

theorem iface_addFuns_spec (sel : String → Nat) :
    ∀ (fs : List FunDef) (fSeen sSeen : List String),
      (((interfaceAddFuns sel fs fSeen sSeen).1.map Prod.snd).Nodup) ∧
      (∀ s ∈ (interfaceAddFuns sel fs fSeen sSeen).1.map Prod.snd, s ∉ sSeen) ∧
      (∀ s ∈ sSeen, s ∈ (interfaceAddFuns sel fs fSeen sSeen).2.2) ∧
      (∀ s ∈ (interfaceAddFuns sel fs fSeen sSeen).2.2,
        s ∈ sSeen ∨ s ∈ (interfaceAddFuns sel fs fSeen sSeen).1.map Prod.snd) ∧
      (∀ s ∈ (interfaceAddFuns sel fs fSeen sSeen).1.map Prod.snd,
        s ∈ (interfaceAddFuns sel fs fSeen sSeen).2.2) ∧
      (∀ f ∈ fs, f.ext = true →
        externalSignature f.name f.args ∈ (interfaceAddFuns sel fs fSeen sSeen).2.2) := by
  intro fs
  induction fs with
  | nil =>
    intro fSeen sSeen
    simp only [interfaceAddFuns]
    exact ⟨by simp, by simp, fun s hs => hs, fun s hs => Or.inl hs, by simp, by simp⟩
  | cons f rest ih =>
    intro fSeen sSeen
    simp only [interfaceAddFuns]
    split
    · split
      · next hseen =>
        obtain ⟨n1, n2, m1, m2, e1, cm⟩ := ih fSeen sSeen
        refine ⟨n1, n2, m1, m2, e1, ?_⟩
        intro g hg hgext
        rcases List.mem_cons.mp hg with rfl | hg'
        · exact m1 _ hseen
        · exact cm g hg' hgext
      · next hnew =>
        obtain ⟨n1, n2, m1, m2, e1, cm⟩ :=
          ih (f.name :: fSeen) (externalSignature f.name f.args :: sSeen)
        simp only [List.map_cons]
        refine ⟨?_, ?_, ?_, ?_, ?_, ?_⟩
        · exact List.nodup_cons.mpr
            ⟨fun hmem => (n2 _ hmem) (List.mem_cons_self _ _), n1⟩
        · intro s' hs'
          rcases List.mem_cons.mp hs' with rfl | hs''
          · exact hnew
          · exact fun hs3 => n2 s' hs'' (List.mem_cons_of_mem _ hs3)
        · intro s' hs'
          exact m1 s' (List.mem_cons_of_mem _ hs')
        · intro s' hs'
          rcases m2 s' hs' with h | h
          · rcases List.mem_cons.mp h with rfl | hin
            · exact Or.inr (List.mem_cons_self _ _)
            · exact Or.inl hin
          · exact Or.inr (List.mem_cons_of_mem _ h)
        · intro s' hs'
          rcases List.mem_cons.mp hs' with rfl | hs''
          · exact m1 _ (List.mem_cons_self _ _)
          · exact e1 s' hs''
        · intro g hg hgext
          rcases List.mem_cons.mp hg with rfl | hg'
          · exact m1 _ (List.mem_cons_self _ _)
          · exact cm g hg' hgext
    · next hext =>
      obtain ⟨n1, n2, m1, m2, e1, cm⟩ := ih fSeen sSeen
      refine ⟨n1, n2, m1, m2, e1, ?_⟩
      intro g hg hgext
      rcases List.mem_cons.mp hg with rfl | hg'
      · exact absurd hgext hext
      · exact cm g hg' hgext

theorem iface_addVars_no_public (sel : String → Nat) :
    ∀ (vs : List VarDef) (fSeen sSeen : List String),
      (∀ v ∈ vs, v.vext = false) →
      interfaceAddVars sel vs fSeen sSeen = ([], fSeen, sSeen) := by
  intro vs
  induction vs with
  | nil => intro fSeen sSeen _; rfl
  | cons v rest ih =>
    intro fSeen sSeen hnp
    have hv : v.vext = false := hnp v (List.mem_cons_self _ _)
    simp only [interfaceAddVars]
    rw [if_neg (by simp [hv])]
    exact ih fSeen sSeen (fun v' hv' => hnp v' (List.mem_cons_of_mem _ hv'))

theorem iface_contracts_spec (sel : String → Nat) :
    ∀ (cs : List ContractDef) (fSeen sSeen : List String),
      (∀ c ∈ cs, ∀ v ∈ c.vars, v.vext = false) →
      (((interfaceContracts sel cs fSeen sSeen).map Prod.snd).Nodup ∧
        (∀ s ∈ (interfaceContracts sel cs fSeen sSeen).map Prod.snd, s ∉ sSeen) ∧
        (∀ c ∈ cs, ∀ f ∈ c.funs, f.ext = true →
          externalSignature f.name f.args ∈ sSeen ∨
          externalSignature f.name f.args ∈
            (interfaceContracts sel cs fSeen sSeen).map Prod.snd)) := by
  intro cs
  induction cs with
  | nil =>
    intro fSeen sSeen _
    exact ⟨by simp [interfaceContracts], by simp [interfaceContracts], by simp⟩
  | cons c rest ih =>
    intro fSeen sSeen hnv
    have hcv := iface_addVars_no_public sel c.vars
      (interfaceAddFuns sel c.funs fSeen sSeen).2.1
      (interfaceAddFuns sel c.funs fSeen sSeen).2.2
      (hnv c (List.mem_cons_self _ _))
    obtain ⟨n1, n2, m1, m2, e1, cm⟩ := iface_addFuns_spec sel c.funs fSeen sSeen
    obtain ⟨I1, I2, I3⟩ := ih (interfaceAddFuns sel c.funs fSeen sSeen).2.1
      (interfaceAddFuns sel c.funs fSeen sSeen).2.2
      (fun c' hc' => hnv c' (List.mem_cons_of_mem _ hc'))
    simp only [interfaceContracts, hcv, List.append_nil, List.map_append]
    refine ⟨?_, ?_, ?_⟩
    · refine List.Nodup.append n1 I1 ?_
      intro a ha hb
      exact I2 a hb (e1 a ha)
    · intro s hs
      rcases List.mem_append.mp hs with hl | hr
      · exact n2 s hl
      · exact fun hsS => I2 s hr (m1 _ hsS)
    · intro c' hc' f hf hfe
      rcases List.mem_cons.mp hc' with rfl | hc''
      · rcases m2 _ (cm f hf hfe) with h | h
        · exact Or.inl h
        · exact Or.inr (List.mem_append_left _ h)
      · rcases I3 c' hc'' f hf hfe with h | h
        · rcases m2 _ h with h' | h'
          · exact Or.inl h'
          · exact Or.inr (List.mem_append_left _ h')
        · exact Or.inr (List.mem_append_right _ h)

theorem iface_collision_mem :
    ∀ (entries : List (Nat × String)) (hashes : List Nat) (h : Nat) (s' : String),
      (h, s') ∈ entries → h ∈ hashes →
      ∃ s, (⟨Severity.TypeError, "Function signature hash collision for " ++ s⟩ : Diagnostic) ∈
        hashCollisionErrors hashes entries := by
  intro entries
  induction entries with
  | nil => intro hashes h s' hmem _; simp at hmem
  | cons e rest ih =>
    intro hashes h s' hmem hh
    rcases e with ⟨h₀, s₀⟩
    simp only [hashCollisionErrors]
    rcases List.mem_cons.mp hmem with heq | hmem'
    · obtain ⟨rfl, rfl⟩ : h = h₀ ∧ s' = s₀ := by
        simpa [Prod.ext_iff] using heq
      refine ⟨s', List.mem_append_left _ ?_⟩
      rw [if_pos hh]
      exact List.mem_singleton.mpr rfl
    · obtain ⟨s, hs⟩ := ih (h₀ :: hashes) h s' hmem' (List.mem_cons_of_mem _ hh)
      exact ⟨s, List.mem_append_right _ hs⟩

theorem iface_collision_dup :
    ∀ (entries : List (Nat × String)) (hashes : List Nat),
      ¬ (entries.map Prod.fst).Nodup →
      ∃ s, (⟨Severity.TypeError, "Function signature hash collision for " ++ s⟩ : Diagnostic) ∈
        hashCollisionErrors hashes entries := by
  intro entries
  induction entries with
  | nil => intro hashes h; simp at h
  | cons e rest ih =>
    intro hashes hnd
    rcases e with ⟨h₀, s₀⟩
    by_cases hmem : h₀ ∈ rest.map Prod.fst
    · obtain ⟨p, hmem', heq⟩ := List.mem_map.mp hmem
      rcases p with ⟨h', s'⟩
      obtain rfl : h' = h₀ := by simpa using heq
      obtain ⟨s, hs⟩ :=
        iface_collision_mem rest (h' :: hashes) h' s' hmem' (List.mem_cons_self _ _)
      exact ⟨s, by simp only [hashCollisionErrors]; exact List.mem_append_right _ hs⟩
    · have hnd' : ¬ (rest.map Prod.fst).Nodup := by
        intro hn
        exact hnd (by simpa using List.nodup_cons.mpr ⟨hmem, hn⟩)
      obtain ⟨s, hs⟩ := ih (h₀ :: hashes) hnd'
      exact ⟨s, by simp only [hashCollisionErrors]; exact List.mem_append_right _ hs⟩

/-- C2 counterexample: the interface function list is not one entry per
distinct external signature.  With a public state variable `foo` in the
derived contract and an external function `foo()` in a base contract, the
variable's accessor entry records only the name (not the signature) as seen,
so the base function's identical signature "foo()" is appended again: two
entries share one signature. -/
theorem interface_duplicate_signature_counterexample :
    ((interfaceFunctionList (fun _ => 0)
        [⟨[], [⟨"foo", [], true⟩]⟩, ⟨[⟨"foo", [], true⟩], []⟩]).map Prod.snd) =
      ["foo()", "foo()"] ∧
    ¬ ((interfaceFunctionList (fun _ => 0)
        [⟨[], [⟨"foo", [], true⟩]⟩, ⟨[⟨"foo", [], true⟩], []⟩]).map Prod.snd).Nodup := by
  decide

/-- C2 (amended): for every contract whose linearized base contracts declare
no public state variables (non-public ones are allowed: they never reach the
interface list), the interface function list contains exactly one entry per
distinct external signature of the externally visible defined functions —
the signatures of its entries are duplicate-free and every externally
visible function's canonical signature appears (so `f(uint)` and `f(uint256)`
yield a single entry); and for every contract, with no restriction on its
state variables, whenever two entries of the list have equal 4-byte
selectors, the type checker emits a TypeError beginning "Function signature
hash collision for". -/
theorem interfaceFunctionList_spec (sel : String → Nat) (cs : List ContractDef) :
    ((∀ c ∈ cs, ∀ v ∈ c.vars, v.vext = false) →
      ((interfaceFunctionList sel cs).map Prod.snd).Nodup ∧
      ∀ c ∈ cs, ∀ f ∈ c.funs, f.ext = true →
        externalSignature f.name f.args ∈ (interfaceFunctionList sel cs).map Prod.snd) ∧
    (¬ ((interfaceFunctionList sel cs).map Prod.fst).Nodup →
      ∃ s, (⟨Severity.TypeError, "Function signature hash collision for " ++ s⟩ : Diagnostic) ∈
        checkHashCollisions (interfaceFunctionList sel cs)) := by
  constructor
  · intro hnopub
    obtain ⟨I1, _, I3⟩ := iface_contracts_spec sel cs [] [] hnopub
    refine ⟨I1, ?_⟩
    intro c hc f hf hfe
    rcases I3 c hc f hf hfe with h | h
    · simp at h
    · exact h
  · intro hdup
    exact iface_collision_dup (interfaceFunctionList sel cs) [] hdup

/-- C2 witness: both implications of the amended theorem discharged at
concrete inputs.  First, a derived contract with external `f(uint)`, an
internal `g()` and a non-public state variable `x`, and a base contract with
external `f(uint256)`: the two `f` declarations share the canonical
signature "f(uint256)" and yield a single entry.  Second, a contract with
external `f()` and `g()` under a constant selector function: the two entries
collide and the TypeError is among the emitted diagnostics. -/
theorem interfaceFunctionList_spec_witness :
    (((interfaceFunctionList (fun _ => 0)
          ([⟨[⟨"f", [ABIType.uintDefault], true⟩, ⟨"g", [], false⟩], [⟨"x", [], false⟩]⟩,
            ⟨[⟨"f", [ABIType.uintN 256], true⟩], []⟩] : List ContractDef)).map
          Prod.snd).Nodup ∧
      ∀ c ∈ ([⟨[⟨"f", [ABIType.uintDefault], true⟩, ⟨"g", [], false⟩], [⟨"x", [], false⟩]⟩,
              ⟨[⟨"f", [ABIType.uintN 256], true⟩], []⟩] : List ContractDef),
        ∀ f ∈ c.funs, f.ext = true →
        externalSignature f.name f.args ∈
          (interfaceFunctionList (fun _ => 0)
            ([⟨[⟨"f", [ABIType.uintDefault], true⟩, ⟨"g", [], false⟩], [⟨"x", [], false⟩]⟩,
              ⟨[⟨"f", [ABIType.uintN 256], true⟩], []⟩] : List ContractDef)).map Prod.snd) ∧
    (∃ s, (⟨Severity.TypeError, "Function signature hash collision for " ++ s⟩ : Diagnostic) ∈
        checkHashCollisions (interfaceFunctionList (fun _ => 0)
          ([⟨[⟨"f", [], true⟩, ⟨"g", [], true⟩], []⟩] : List ContractDef))) :=
  ⟨(interfaceFunctionList_spec (fun _ => 0)
      ([⟨[⟨"f", [ABIType.uintDefault], true⟩, ⟨"g", [], false⟩], [⟨"x", [], false⟩]⟩,
        ⟨[⟨"f", [ABIType.uintN 256], true⟩], []⟩] : List ContractDef)).1 (by decide),
   (interfaceFunctionList_spec (fun _ => 0)
      ([⟨[⟨"f", [], true⟩, ⟨"g", [], true⟩], []⟩] : List ContractDef)).2 (by decide)⟩

/-- C5 counterexample: for the self-recursive struct `S { S next; }` the
recursion check run by the type checker (`TypeChecker::visit(StructDefinition)`,
which reports through `fatalTypeError`) emits the fatal diagnostic "Recursive
struct definition." with severity `TypeError`, not `ParserError` as the claim
states. -/
theorem struct_recursion_severity_counterexample :
    typeCheckerStructRecursion [(0, [MemberType.structMember 0])] 0 =
        Except.error ⟨Severity.TypeError, "Recursive struct definition."⟩ ∧
      Severity.TypeError ≠ Severity.ParserError := by
  exact ⟨rfl, by decide⟩

/-- C5 (amended): for every struct whose members, followed only through
fields whose type is itself a struct held by value (not through mappings or
arrays), reach an ancestor struct of the DFS — formalized as a walk in the
value-struct-member graph starting at the struct and revisiting some node —
the recursion check emits the fatal diagnostic "Recursive struct
definition.": with severity `ParserError` in `StructDefinition::checkRecursion`
and with severity `TypeError` in the `TypeChecker::visit(StructDefinition)`
copy of the same DFS. -/
theorem checkRecursion_spec (structs : StructTable) (S : Nat)
    (hcycle : ∃ w : List Nat,
      w.Chain' (structEdge structs) ∧ w.head? = some S ∧ ¬ w.Nodup) :
    checkRecursion structs S =
        Except.error ⟨Severity.ParserError, "Recursive struct definition."⟩ ∧
      typeCheckerStructRecursion structs S =
        Except.error ⟨Severity.TypeError, "Recursive struct definition."⟩ :=
  ⟨struct_core_cycle _ structs S hcycle, struct_core_cycle _ structs S hcycle⟩

/-- C5 witness: the struct `S { S next; }` (id 0 with a value member of its
own struct type) discharges the cycle hypothesis via the walk `[0, 0]`. -/
theorem checkRecursion_spec_witness :
    checkRecursion [(0, [MemberType.structMember 0])] 0 =
        Except.error ⟨Severity.ParserError, "Recursive struct definition."⟩ ∧
      typeCheckerStructRecursion [(0, [MemberType.structMember 0])] 0 =
        Except.error ⟨Severity.TypeError, "Recursive struct definition."⟩ :=
  checkRecursion_spec [(0, [MemberType.structMember 0])] 0
    ⟨[0, 0],
      List.chain'_cons.mpr
        ⟨⟨[MemberType.structMember 0], rfl, by simp⟩, List.chain'_singleton _⟩,
      rfl, by decide⟩

end Solidity
